import Mathlib

/-!
Verification development for the godotup version manager (src/lib.rs).

The Rust source is shallowly embedded: pure functions become Lean functions,
the effectful operations (download, registry refresh, archive extraction)
are modelled as pure state transformers over explicit representations of the
file contents and the network responses.  Machine integers (u8 version
fields, u64 lengths) carry no arithmetic beyond decimal rendering and
subtraction in this program, so they are embedded as Nat (Rust's
saturating_sub corresponds exactly to Nat subtraction).
-/

namespace Godotup

/-! ## Data model: godot::Platform, godot::Suffix, godot::Version (lib.rs 56-80) -/

inductive Platform where
  | win32
  | win64
  | linux32
  | linux64
  | macos
deriving DecidableEq

inductive Suffix where
  | stable
  | alpha (n : Nat)
  | beta (n : Nat)
  | rc (n : Nat)
deriving DecidableEq

structure Version where
  major : Nat
  minor : Nat
  patch : Nat
  suffix : Suffix
  is_mono : Bool
  platform : Platform
deriving DecidableEq

/-! ## Decimal rendering, modelling Rust's Display for unsigned integers.
Fuel-based structural recursion; fuel n+1 always suffices since n/10 < n. -/

def digChar (d : Nat) : Char := Char.ofNat (48 + d)

def natDigsAux (fuel : Nat) (n : Nat) : List Char :=
  match fuel with
  | 0 => []
  | f + 1 => if n < 10 then [digChar n] else natDigsAux f (n / 10) ++ [digChar (n % 10)]

def natDigs (n : Nat) : List Char := natDigsAux (n + 1) n

def natStr (n : Nat) : String := String.mk (natDigs n)

/-! ## Display for Version (lib.rs 82-97).
The suffix string is "-alpha{x}" / "-beta{x}" / "-rc{x}" / "-stable";
the mono string is "_mono" when is_mono, else empty; the whole string is
"Godot_v{major}.{minor}.{patch}{suffix}{mono}".  Platform is not rendered. -/

def sufData : Suffix → List Char
  | Suffix.alpha x => "-alpha".data ++ natDigs x
  | Suffix.beta x => "-beta".data ++ natDigs x
  | Suffix.rc x => "-rc".data ++ natDigs x
  | Suffix.stable => "-stable".data

def monoData : Bool → List Char
  | true => "_mono".data
  | false => []

def fmtData (v : Version) : List Char :=
  "Godot_v".data ++
    (natDigs v.major ++ ('.' :: (natDigs v.minor ++ ('.' :: (natDigs v.patch ++
      (sufData v.suffix ++ monoData v.is_mono))))))

def Version.fmt (v : Version) : String := String.mk (fmtData v)

/-- Modelled from the spec (amended section 4.1): the display string is
Godot_v{major}.{minor}.{patch}{suffix}{variant} where the suffix part is
"-stable" for Stable and "-alpha{n}" / "-beta{n}" / "-rc{n}" otherwise,
and the variant part is "_mono" exactly when is_mono.  Used only to compare
the source Display implementation against the spec's wording. -/
def specSuffixStr : Suffix → String
  | Suffix.stable => "-stable"
  | Suffix.alpha n => "-alpha" ++ natStr n
  | Suffix.beta n => "-beta" ++ natStr n
  | Suffix.rc n => "-rc" ++ natStr n

/-- Modelled from the spec (amended section 4.1): assembly of the display string. -/
def specFmt (v : Version) : String :=
  "Godot_v" ++ natStr v.major ++ "." ++ natStr v.minor ++ "." ++ natStr v.patch
    ++ specSuffixStr v.suffix ++ (if v.is_mono then "_mono" else "")

/-! ## Parsing (modelled from the spec).
lib.rs contains no parse function; spec section 4.1 requires
"parse(string) -> VersionId: inverse of format; fails on malformed input".
Because Display omits the platform field, a parser can recover at most the
platform-independent fields; VersionCore is that recoverable part. -/

structure VersionCore where
  major : Nat
  minor : Nat
  patch : Nat
  suffix : Suffix
  is_mono : Bool
deriving DecidableEq

def Version.core (v : Version) : VersionCore :=
  ⟨v.major, v.minor, v.patch, v.suffix, v.is_mono⟩

/-- Consume an expected literal from the front of the input. -/
def eatLit : List Char → List Char → Option (List Char)
  | [], cs => some cs
  | _ :: _, [] => none
  | l :: ls, c :: cs => if c = l then eatLit ls cs else none

/-- True when the input is empty or starts with a non-digit character. -/
def headND : List Char → Bool
  | [] => true
  | c :: _ => !c.isDigit

/-- Split off the maximal leading run of decimal digits. -/
def grabDigits : List Char → List Char × List Char
  | [] => ([], [])
  | c :: cs =>
    if c.isDigit then (c :: (grabDigits cs).1, (grabDigits cs).2)
    else ([], c :: cs)

/-- Numeric value of a digit string, most significant digit first. -/
def digitsVal (ds : List Char) : Nat :=
  ds.foldl (fun a c => a * 10 + (c.toNat - 48)) 0

/-- Parse a nonempty run of decimal digits into a number. -/
def parseNat? (cs : List Char) : Option (Nat × List Char) :=
  match grabDigits cs with
  | ([], _) => none
  | (ds, r) => some (digitsVal ds, r)

/-- Modelled from the spec: parse the suffix part of a display string. -/
def parseSuf (cs : List Char) : Option (Suffix × List Char) :=
  match eatLit "-stable".data cs with
  | some r => some (Suffix.stable, r)
  | none =>
    match eatLit "-alpha".data cs with
    | some r =>
      match parseNat? r with
      | some p => some (Suffix.alpha p.1, p.2)
      | none => none
    | none =>
      match eatLit "-beta".data cs with
      | some r =>
        match parseNat? r with
        | some p => some (Suffix.beta p.1, p.2)
        | none => none
      | none =>
        match eatLit "-rc".data cs with
        | some r =>
          match parseNat? r with
          | some p => some (Suffix.rc p.1, p.2)
          | none => none
        | none => none

/-- Modelled from the spec: parse the trailing mono-variant marker. -/
def parseMono : List Char → Option Bool
  | [] => some false
  | cs => if cs = "_mono".data then some true else none

/-- Modelled from the spec: parse of a full display string. -/
def parseVersionData (cs : List Char) : Option VersionCore :=
  (eatLit "Godot_v".data cs).bind fun r0 =>
  (parseNat? r0).bind fun p1 =>
  (eatLit ['.'] p1.2).bind fun r2 =>
  (parseNat? r2).bind fun p3 =>
  (eatLit ['.'] p3.2).bind fun r4 =>
  (parseNat? r4).bind fun p5 =>
  (parseSuf p5.2).bind fun p6 =>
  (parseMono p6.2).bind fun mono =>
  some ⟨p1.1, p3.1, p5.1, p6.1, mono⟩

/-- Modelled from the spec: parse(string), failing on malformed input. -/
def parseVersion (s : String) : Option VersionCore := parseVersionData s.data

/-! ## VersionList (lib.rs 45-54).
The HashMap from Version to URL is embedded as an association list whose
keys are pairwise distinct; HashMap::get is lookup by structural equality
(the derived PartialEq/Eq/Hash of Version compare all fields). -/

def find_url : List (Version × String) → Version → Option String
  | [], _ => none
  | p :: rest, v => if p.1 = v then some p.2 else find_url rest v

/-- The lookup step of CliApp::install_godot (lib.rs 203-206): a missing key
becomes an error whose message renders the requested version via Display. -/
def install_godot_lookup (l : List (Version × String)) (v : Version) :
    Except String String :=
  match find_url l v with
  | some url => Except.ok url
  | none => Except.error ("Version " ++ Version.fmt v ++ " not found")

/-! ## Config (lib.rs 19-38). -/

structure Config where
  version_list_proxy_url : String
  download_proxy_url : String
  set_godot_bin : Bool
  set_godot4_bin : Bool
deriving DecidableEq

def Config.default : Config :=
  ⟨"https://raw.githubusercontent.com/Hapenia-Lans/godotup/main/versions.yml",
   "https://downloads.tuxfamily.org/godotengine/",
   true, true⟩

/-! ## download_from_url (lib.rs 234-279).
File contents are lists of byte values; `none` means the destination file
does not exist.  The network behaviour is a parameter: the HEAD status, a
flag for the GET request's status (which the source never examines), a flag
for a failure of the GET send itself, the body chunks the server streams
back, and an optional chunk index at which the stream dies mid-transfer. -/

inductive DlErr where
  | headStatus (url : String) (status : Nat)
  | netFail
deriving DecidableEq

/-- reqwest StatusCode::is_success: 2xx. -/
def statusIsSuccess (s : Nat) : Bool := 200 ≤ s && s ≤ 299

/-- The byte offset sent in the Range header when the destination exists:
lib.rs 264 computes metadata.len().saturating_sub(1). -/
def rangeStart (existing : Option (List Nat)) : Option Nat :=
  existing.map (fun bs => bs.length - 1)

/-- Concatenation of the streamed chunks, in the order they are written. -/
def joinChunks : List (List Nat) → List Nat
  | [] => []
  | c :: cs => c ++ joinChunks cs

/-- Outcome of download_from_url: the error (if any) and the destination
file's final contents.  The destination is opened with create+append
(lib.rs 269-272), so delivered chunks are appended to the existing bytes;
on a mid-stream failure the partial file is left in place. -/
def download_from_url (url : String) (existing : Option (List Nat))
    (headStatus : Nat) (getStatusOk : Bool) (sendFail : Bool)
    (chunks : List (List Nat)) (failAfter : Option Nat) :
    Option DlErr × Option (List Nat) :=
  if statusIsSuccess headStatus = false then
    (some (DlErr.headStatus url headStatus), existing)
  else if sendFail then
    (some DlErr.netFail, existing)
  else
    match failAfter with
    | some k => (some DlErr.netFail, some (existing.getD [] ++ joinChunks (chunks.take k)))
    | none => (none, some (existing.getD [] ++ joinChunks chunks))

/-- Composition with a well-behaved server of known content: HEAD succeeds,
and the GET body is the source bytes from the requested Range offset
(the full source when no Range header is sent). -/
def fetchHonest (url : String) (existing : Option (List Nat))
    (source : List Nat) : Option DlErr × Option (List Nat) :=
  download_from_url url existing 200 true false
    [source.drop ((rangeStart existing).getD 0)] none

/-! ## CliApp::update_version_list (lib.rs 192-200) and the registry cache. -/

structure UpdateResult where
  fetchedUrl : String
  error : Option DlErr
  cacheAfter : Option (List Nat)
deriving DecidableEq

/-- CliApp::update_version_list: if the cache file exists it is removed
first (lib.rs 194-197), then download_from_url is called with
config.download_proxy_url as the source URL (lib.rs 198). -/
def update_version_list (c : Config) (cache : Option (List Nat))
    (headStatus : Nat) (getStatusOk : Bool) (sendFail : Bool)
    (chunks : List (List Nat)) (failAfter : Option Nat) : UpdateResult :=
  let afterRemove : Option (List Nat) := if cache.isSome then none else cache
  let r := download_from_url c.download_proxy_url afterRemove
    headStatus getStatusOk sendFail chunks failAfter
  ⟨c.download_proxy_url, r.1, r.2⟩

/-- load_version_list (lib.rs 285-291): File::open fails when the cache
file is absent; the yaml deserialization of present bytes is abstracted as
the identity (no claim depends on its failure behaviour). -/
def load_version_list (cache : Option (List Nat)) : Except String (List Nat) :=
  match cache with
  | none => Except.error "file not found"
  | some bs => Except.ok bs

/-! ## CliApp::switch (lib.rs 213-220): the body is todo!(), which panics
unconditionally before reading any state. -/

inductive SwitchOutcome where
  | panic
  | notInstalled
  | ok (bindings : List (String × String))
deriving DecidableEq

def CliApp.switch (_v : Version) : SwitchOutcome := SwitchOutcome.panic

/-! ## unzip (lib.rs 302-349).
Entry names are embedded as parsed path components (the result of Rust's
Path::components over the stored name); Comp.root also covers Windows
drive prefixes, which enclosed_name treats the same way. -/

inductive Comp where
  | root
  | cur
  | par
  | normal (s : String)
deriving DecidableEq

/-- The depth check of ZipFile::enclosed_name (zip crate): walk the
components keeping a depth counter; absolute components are rejected, a
parent component at depth zero (checked_sub failing) is rejected. -/
def encOk : List Comp → Nat → Bool
  | [], _ => true
  | Comp.root :: _, _ => false
  | Comp.cur :: rest, d => encOk rest d
  | Comp.par :: rest, d => if d = 0 then false else encOk rest (d - 1)
  | Comp.normal _ :: rest, d => encOk rest (d + 1)

/-- ZipFile::enclosed_name returns the entry's own path exactly when the
containment check passes. -/
def enclosedName (cs : List Comp) : Option (List Comp) :=
  if encOk cs 0 then some cs else none

structure Entry where
  comps : List Comp
  isDir : Bool
  content : List Nat
  mode : Option Nat
deriving DecidableEq

inductive FsOp where
  | mkdirAll (p : List Comp)
  | ensureDir (p : List Comp)
  | createWrite (p : List Comp) (data : List Nat)
  | chmod (p : List Comp) (m : Nat)
deriving DecidableEq

/-- Filesystem writes performed for one archive entry (lib.rs 306-347):
an entry whose enclosed_name is None is skipped with no write at all;
a directory entry gets create_dir_all; a file entry gets its parent
directory ensured and its bytes written; unix permission bits, when
present, are applied to the output path afterwards. -/
def entryOps (tgt : List Comp) (e : Entry) : List FsOp :=
  match enclosedName e.comps with
  | none => []
  | some p =>
    let outpath := tgt ++ p
    (if e.isDir then [FsOp.mkdirAll outpath]
     else [FsOp.ensureDir outpath.dropLast, FsOp.createWrite outpath e.content]) ++
    (match e.mode with
     | some m => [FsOp.chmod outpath m]
     | none => [])

/-- All filesystem writes of a successful unzip run, in archive order. -/
def unzipOps (tgt : List Comp) : List Entry → List FsOp
  | [] => []
  | e :: rest => entryOps tgt e ++ unzipOps tgt rest

inductive UnzipOutcome where
  | ok
  | ioError (msg : String)
  | panicked
deriving DecidableEq

/-- The per-entry loop of unzip with failure injection: fetching an entry
(by_index) is unwrapped, so a corrupt entry panics; every filesystem write
for a kept entry is unwrapped, so a write failure (wfail) panics; a skipped
entry performs no write and cannot fail. -/
def unzipEntriesOutcome (wfail : Entry → Bool) :
    List (Except String Entry) → UnzipOutcome
  | [] => UnzipOutcome.ok
  | Except.error _ :: _ => UnzipOutcome.panicked
  | Except.ok e :: rest =>
    if encOk e.comps 0 then
      if wfail e then UnzipOutcome.panicked else unzipEntriesOutcome wfail rest
    else unzipEntriesOutcome wfail rest

/-- unzip (lib.rs 302-349): File::open propagates its error with ? ;
ZipArchive::new is unwrapped, so an unreadable archive panics; then the
entry loop runs. -/
def unzip (openRes : Except String Unit)
    (archiveRes : Except String (List (Except String Entry)))
    (wfail : Entry → Bool) : UnzipOutcome :=
  match openRes with
  | Except.error m => UnzipOutcome.ioError m
  | Except.ok _ =>
    match archiveRes with
    | Except.error _ => UnzipOutcome.panicked
    | Except.ok entries => unzipEntriesOutcome wfail entries

/-! ## Concrete demonstration data (spec section 8, scenario 1) -/

def demoKeyLin : Version := ⟨4, 0, 3, Suffix.stable, false, Platform.linux64⟩

def demoKeyWin : Version := ⟨4, 0, 3, Suffix.stable, false, Platform.win64⟩

def demoRegistry : List (Version × String) :=
  [(demoKeyLin, "https://example/godot-4.0.3-linux64.zip")]

/-! ## Helper lemmas: decimal rendering round-trip -/

theorem natDigsAux_congr (n : Nat) : ∀ f1 f2 : Nat, n < f1 → n < f2 →
    natDigsAux f1 n = natDigsAux f2 n := by
  induction n using Nat.strong_induction_on with
  | _ n ih =>
    intro f1 f2 h1 h2
    cases f1 with
    | zero => omega
    | succ g =>
      cases f2 with
      | zero => omega
      | succ k =>
        simp only [natDigsAux]
        by_cases hn : n < 10
        · simp [hn]
        · have hd : n / 10 < n := Nat.div_lt_self (by omega) (by omega)
          simp only [if_neg hn]
          rw [ih (n / 10) hd g k (by omega) (by omega)]

theorem natDigs_def (n : Nat) :
    natDigs n = if n < 10 then [digChar n] else natDigs (n / 10) ++ [digChar (n % 10)] := by
  show natDigsAux (n + 1) n = _
  simp only [natDigsAux]
  by_cases hn : n < 10
  · simp [hn]
  · have hd : n / 10 < n := Nat.div_lt_self (by omega) (by omega)
    simp only [if_neg hn]
    rw [natDigsAux_congr (n / 10) n (n / 10 + 1) hd (by omega)]
    rfl

theorem digChar_toNat : ∀ d : Nat, d < 10 → (digChar d).toNat = 48 + d := by decide

theorem digChar_isDigit : ∀ d : Nat, d < 10 → (digChar d).isDigit = true := by decide

theorem digitsVal_append_last (xs : List Char) (c : Char) :
    digitsVal (xs ++ [c]) = digitsVal xs * 10 + (c.toNat - 48) := by
  simp [digitsVal, List.foldl_append]

theorem digitsVal_natDigs : ∀ n : Nat, digitsVal (natDigs n) = n := by
  intro n
  induction n using Nat.strong_induction_on with
  | _ n ih =>
    rw [natDigs_def]
    by_cases hn : n < 10
    · simp only [if_pos hn]
      simp [digitsVal, digChar_toNat n hn]
    · have hd : n / 10 < n := Nat.div_lt_self (by omega) (by omega)
      simp only [if_neg hn]
      rw [digitsVal_append_last, ih (n / 10) hd, digChar_toNat (n % 10) (by omega)]
      omega

theorem natDigs_all_digits : ∀ n : Nat, ∀ c ∈ natDigs n, c.isDigit = true := by
  intro n
  induction n using Nat.strong_induction_on with
  | _ n ih =>
    rw [natDigs_def]
    by_cases hn : n < 10
    · simp only [if_pos hn]
      intro c hc
      simp only [List.mem_singleton] at hc
      subst hc
      exact digChar_isDigit n hn
    · have hd : n / 10 < n := Nat.div_lt_self (by omega) (by omega)
      simp only [if_neg hn]
      intro c hc
      rcases List.mem_append.mp hc with h | h
      · exact ih (n / 10) hd c h
      · simp only [List.mem_singleton] at h
        subst h
        exact digChar_isDigit (n % 10) (by omega)

theorem natDigs_ne_nil (n : Nat) : natDigs n ≠ [] := by
  rw [natDigs_def]
  by_cases hn : n < 10 <;> simp [hn]

theorem grabDigits_append (ds : List Char) (rest : List Char)
    (hds : ∀ c ∈ ds, c.isDigit = true) (hr : headND rest = true) :
    grabDigits (ds ++ rest) = (ds, rest) := by
  induction ds with
  | nil =>
    cases rest with
    | nil => rfl
    | cons c cs =>
      simp only [headND, Bool.not_eq_true'] at hr
      simp [grabDigits, hr]
  | cons d ds ih =>
    have hd : d.isDigit = true := hds d (by simp)
    have ih' := ih (fun c hc => hds c (by simp [hc]))
    simp [grabDigits, hd, ih']

theorem parseNat?_digs (n : Nat) (rest : List Char) (h : headND rest = true) :
    parseNat? (natDigs n ++ rest) = some (n, rest) := by
  have hg := grabDigits_append (natDigs n) rest (natDigs_all_digits n) h
  have hne := natDigs_ne_nil n
  simp only [parseNat?, hg]
  cases hnd : natDigs n with
  | nil => exact absurd hnd hne
  | cons c cs =>
    rw [← hnd, digitsVal_natDigs]

theorem eatLit_self : ∀ l rest : List Char, eatLit l (l ++ rest) = some rest := by
  intro l
  induction l with
  | nil => intro rest; rfl
  | cons c cs ih => intro rest; simp [eatLit, ih]

theorem parseSuf_stable (X : List Char) :
    parseSuf ("-stable".data ++ X) = some (Suffix.stable, X) := rfl

theorem parseSuf_alpha (n : Nat) (X : List Char) (h : headND X = true) :
    parseSuf ("-alpha".data ++ (natDigs n ++ X)) = some (Suffix.alpha n, X) := by
  show (match parseNat? (natDigs n ++ X) with
        | some p => some (Suffix.alpha p.1, p.2)
        | none => none) = some (Suffix.alpha n, X)
  rw [parseNat?_digs n X h]

theorem parseSuf_beta (n : Nat) (X : List Char) (h : headND X = true) :
    parseSuf ("-beta".data ++ (natDigs n ++ X)) = some (Suffix.beta n, X) := by
  show (match parseNat? (natDigs n ++ X) with
        | some p => some (Suffix.beta p.1, p.2)
        | none => none) = some (Suffix.beta n, X)
  rw [parseNat?_digs n X h]

theorem parseSuf_rc (n : Nat) (X : List Char) (h : headND X = true) :
    parseSuf ("-rc".data ++ (natDigs n ++ X)) = some (Suffix.rc n, X) := by
  show (match parseNat? (natDigs n ++ X) with
        | some p => some (Suffix.rc p.1, p.2)
        | none => none) = some (Suffix.rc n, X)
  rw [parseNat?_digs n X h]

theorem parseMono_monoData : ∀ m : Bool, parseMono (monoData m) = some m := by decide

theorem headND_monoData : ∀ m : Bool, headND (monoData m) = true := by decide

theorem sufData_headND (suf : Suffix) (m : Bool) :
    headND (sufData suf ++ monoData m) = true := by
  cases suf <;> rfl

theorem parseSuf_sufData (suf : Suffix) (m : Bool) :
    parseSuf (sufData suf ++ monoData m) = some (suf, monoData m) := by
  cases suf with
  | stable => exact parseSuf_stable _
  | alpha n =>
    simp only [sufData, List.append_assoc]
    exact parseSuf_alpha n _ (headND_monoData m)
  | beta n =>
    simp only [sufData, List.append_assoc]
    exact parseSuf_beta n _ (headND_monoData m)
  | rc n =>
    simp only [sufData, List.append_assoc]
    exact parseSuf_rc n _ (headND_monoData m)

theorem parse_fmtData (v : Version) :
    parseVersionData (fmtData v) = some v.core := by
  obtain ⟨ma, mi, pa, suf, mono, plat⟩ := v
  show parseVersionData
    ("Godot_v".data ++
      (natDigs ma ++ ('.' :: (natDigs mi ++ ('.' :: (natDigs pa ++
        (sufData suf ++ monoData mono))))))) = some ⟨ma, mi, pa, suf, mono⟩
  have e1 : eatLit ['.'] ('.' :: (natDigs mi ++ ('.' :: (natDigs pa ++
      (sufData suf ++ monoData mono))))) = natDigs mi ++ ('.' :: (natDigs pa ++
      (sufData suf ++ monoData mono))) := rfl
  have e2 : eatLit ['.'] ('.' :: (natDigs pa ++ (sufData suf ++ monoData mono))) =
      natDigs pa ++ (sufData suf ++ monoData mono) := rfl
  simp only [parseVersionData, eatLit_self, Option.some_bind,
    parseNat?_digs _ _ (show headND ('.' :: (natDigs mi ++ ('.' :: (natDigs pa ++
      (sufData suf ++ monoData mono))))) = true from rfl),
    parseNat?_digs _ _ (show headND ('.' :: (natDigs pa ++
      (sufData suf ++ monoData mono))) = true from rfl),
    parseNat?_digs _ _ (sufData_headND suf mono),
    e1, e2, parseSuf_sufData, parseMono_monoData]

/-! ## Helper lemmas: display string versus the spec's wording -/

theorem str_data_append (a b : String) : (a ++ b).data = a.data ++ b.data := rfl

theorem fmt_eq_specFmt (v : Version) : Version.fmt v = specFmt v := by
  obtain ⟨ma, mi, pa, suf, mono, plat⟩ := v
  have hd : (specFmt ⟨ma, mi, pa, suf, mono, plat⟩).data =
      fmtData ⟨ma, mi, pa, suf, mono, plat⟩ := by
    cases suf <;> cases mono <;>
      simp [specFmt, fmtData, natStr, specSuffixStr, sufData, monoData,
        str_data_append, List.append_assoc,
        show (".".data : List Char) = ['.'] from rfl,
        show ("".data : List Char) = [] from rfl,
        show ("_mono".data : List Char) = '_' :: "mono".data from rfl]
  calc Version.fmt ⟨ma, mi, pa, suf, mono, plat⟩
      = String.mk (fmtData ⟨ma, mi, pa, suf, mono, plat⟩) := rfl
    _ = String.mk ((specFmt ⟨ma, mi, pa, suf, mono, plat⟩).data) := by rw [hd]
    _ = specFmt ⟨ma, mi, pa, suf, mono, plat⟩ := rfl

/-! ## Helper lemmas: registry lookup -/

theorem find_url_present (l : List (Version × String)) (v : Version)
    (hnd : (l.map Prod.fst).Nodup) (u : String) (hu : (v, u) ∈ l) :
    find_url l v = some u := by
  induction l with
  | nil => simp at hu
  | cons p rest ih =>
    rw [List.map_cons, List.nodup_cons] at hnd
    rcases List.mem_cons.mp hu with h | h
    · subst h
      simp [find_url]
    · have hv : v ∈ rest.map Prod.fst := List.mem_map.mpr ⟨(v, u), h, rfl⟩
      by_cases hp : p.1 = v
      · exact absurd (hp ▸ hv) hnd.1
      · simp only [find_url, if_neg hp]
        exact ih hnd.2 h

theorem find_url_absent (l : List (Version × String)) (v : Version)
    (hv : v ∉ l.map Prod.fst) : find_url l v = none := by
  induction l with
  | nil => rfl
  | cons p rest ih =>
    rw [List.map_cons, List.mem_cons] at hv
    push_neg at hv
    have hp : ¬ p.1 = v := fun h => hv.1 h.symm
    simp only [find_url, if_neg hp]
    exact ih hv.2

/-! ## Helper lemmas: unzip -/

theorem entryOps_escaping (tgt : List Comp) (e : Entry)
    (h : encOk e.comps 0 = false) : entryOps tgt e = [] := by
  simp [entryOps, enclosedName, h]

theorem unzipOps_filter (tgt : List Comp) (entries : List Entry) :
    unzipOps tgt entries =
      unzipOps tgt (entries.filter fun e => encOk e.comps 0) := by
  induction entries with
  | nil => rfl
  | cons e rest ih =>
    by_cases h : encOk e.comps 0 = true
    · rw [List.filter_cons_of_pos (by simpa using h)]
      simp only [unzipOps]
      rw [ih]
    · rw [List.filter_cons_of_neg (by simpa using h)]
      simp only [unzipOps]
      rw [entryOps_escaping tgt e (by simpa using h), List.nil_append, ih]

theorem unzipEntriesOutcome_fail (wfail : Entry → Bool) :
    ∀ entries : List (Except String Entry),
    ((∃ m, Except.error m ∈ entries) ∨
     (∃ e, Except.ok e ∈ entries ∧ encOk e.comps 0 = true ∧ wfail e = true)) →
    unzipEntriesOutcome wfail entries = UnzipOutcome.panicked := by
  intro entries
  induction entries with
  | nil =>
    rintro (⟨m, hm⟩ | ⟨e, he, _, _⟩)
    · simp at hm
    · simp at he
  | cons x rest ih =>
    intro h
    cases x with
    | error m' => rfl
    | ok e' =>
      by_cases hk : encOk e'.comps 0 = true
      · by_cases hw : wfail e' = true
        · simp [unzipEntriesOutcome, hk, hw]
        · have hrest : (∃ m, Except.error m ∈ rest) ∨
              (∃ e, Except.ok e ∈ rest ∧ encOk e.comps 0 = true ∧ wfail e = true) := by
            rcases h with ⟨m, hm⟩ | ⟨e, he, h1, h2⟩
            · rcases List.mem_cons.mp hm with hh | hh
              · simp at hh
              · exact Or.inl ⟨m, hh⟩
            · rcases List.mem_cons.mp he with hh | hh
              · have he' : e = e' := by simpa using hh
                exact absurd (he' ▸ h2) hw
              · exact Or.inr ⟨e, hh, h1, h2⟩
          simp [unzipEntriesOutcome, hk, hw, ih hrest]
      · have hrest : (∃ m, Except.error m ∈ rest) ∨
            (∃ e, Except.ok e ∈ rest ∧ encOk e.comps 0 = true ∧ wfail e = true) := by
          rcases h with ⟨m, hm⟩ | ⟨e, he, h1, h2⟩
          · rcases List.mem_cons.mp hm with hh | hh
            · simp at hh
            · exact Or.inl ⟨m, hh⟩
          · rcases List.mem_cons.mp he with hh | hh
            · have he' : e = e' := by simpa using hh
              exact absurd (he' ▸ h1) hk
            · exact Or.inr ⟨e, hh, h1, h2⟩
        simp [unzipEntriesOutcome, hk, ih hrest]

/-! ## Claims -/

/-- C1: against a well-behaved server and a destination already holding the
first K bytes of an N-byte source (0 < K < N), download_from_url does NOT
behave as claimed: the Range offset it sends is K - 1 (saturating_sub(1) of
the file length, lib.rs 264), and because the response is appended, the
destination ends up N + 1 bytes long with byte K - 1 duplicated, never N
bytes and never byte-identical to a full download. -/
theorem c1_resume_off_by_one (url : String) (source : List Nat) (K : Nat)
    (h1 : 0 < K) (h2 : K < source.length) :
    rangeStart (some (source.take K)) = some (K - 1)
    ∧ (fetchHonest url (some (source.take K)) source).2 =
        some (source.take K ++ source.drop (K - 1))
    ∧ (source.take K ++ source.drop (K - 1)).length = source.length + 1 := by
  have hlen : (source.take K).length = K := by
    rw [List.length_take]
    omega
  refine ⟨?_, ?_, ?_⟩
  · simp [rangeStart, hlen]
  · simp [fetchHonest, download_from_url, statusIsSuccess, rangeStart, joinChunks, hlen]
  · simp only [List.length_append, hlen, List.length_drop]
    omega

/-- C1 witness: source of 3 bytes, destination holding its first byte; the
ranged fetch starts at offset 0, and the result is 4 bytes long. -/
theorem c1_resume_off_by_one_w :
    rangeStart (some ([10, 20, 30].take 1)) = some (1 - 1)
    ∧ (fetchHonest "u" (some ([10, 20, 30].take 1)) [10, 20, 30]).2 =
        some ([10, 20, 30].take 1 ++ [10, 20, 30].drop (1 - 1))
    ∧ (([10, 20, 30].take 1 ++ [10, 20, 30].drop (1 - 1)) : List Nat).length =
        ([10, 20, 30] : List Nat).length + 1 :=
  c1_resume_off_by_one "u" [10, 20, 30] 1 (by decide) (by decide)

/-- C2 counterexample: with a cached registry of contents [7], a refresh
whose download fails at the HEAD request (status 500) leaves NO cache file
at all — the old cache was removed before the download — so a subsequent
load fails, contradicting the claim that the prior cache survives. -/
theorem c2_cex :
    (update_version_list Config.default (some [7]) 500 true false [] none).cacheAfter = none
    ∧ load_version_list
        (update_version_list Config.default (some [7]) 500 true false [] none).cacheAfter =
        Except.error "file not found" :=
  ⟨rfl, rfl⟩

/-- C2 amended: update_version_list deletes any existing cache before
downloading, so the refresh outcome is independent of the prior cache
contents, and a download failing at the metadata probe leaves no cache
file at all (a subsequent load cannot succeed). -/
theorem c2_delete_then_fetch (c : Config) (cache cache' : Option (List Nat))
    (hs : Nat) (gOk sf : Bool) (chunks : List (List Nat)) (fa : Option Nat) :
    update_version_list c cache hs gOk sf chunks fa =
      update_version_list c cache' hs gOk sf chunks fa
    ∧ (statusIsSuccess hs = false →
        (update_version_list c cache hs gOk sf chunks fa).cacheAfter = none) := by
  constructor
  · cases cache <;> cases cache' <;> rfl
  · intro h
    cases cache <;> simp [update_version_list, download_from_url, h]

/-- C2 witness: a concrete failed refresh over a concrete prior cache. -/
theorem c2_delete_then_fetch_w :
    (update_version_list Config.default (some [1]) 503 true false [[2]] none).cacheAfter = none :=
  (c2_delete_then_fetch Config.default (some [1]) none 503 true false [[2]] none).2 (by decide)

/-- C3 counterexample: the Display impl renders the Stable suffix as
"-stable" (lib.rs 88), not as the empty string the claim demands; the
repository's own test (lib.rs 142) asserts the "-stable" form. -/
theorem c3_cex :
    Version.fmt ⟨4, 0, 3, Suffix.stable, false, Platform.win32⟩ = "Godot_v4.0.3-stable"
    ∧ decide (Version.fmt ⟨4, 0, 3, Suffix.stable, false, Platform.win32⟩ =
        "Godot_v4.0.3") = false :=
  ⟨rfl, rfl⟩

/-- C3 amended: format produces Godot_v{major}.{minor}.{patch}{suffix}{variant}
where the suffix part is "-stable" when the suffix is Stable and -alpha{n} /
-beta{n} / -rc{n} otherwise, and the variant part is _mono exactly when
is_mono; the claim's alpha example and the repository test's four examples
all hold. -/
theorem c3_fmt_shape :
    (∀ v : Version, Version.fmt v = specFmt v)
    ∧ Version.fmt ⟨4, 0, 0, Suffix.alpha 8, false, Platform.linux64⟩ = "Godot_v4.0.0-alpha8"
    ∧ Version.fmt ⟨4, 0, 0, Suffix.alpha 8, true, Platform.linux64⟩ = "Godot_v4.0.0-alpha8_mono"
    ∧ Version.fmt ⟨4, 0, 3, Suffix.stable, false, Platform.win32⟩ = "Godot_v4.0.3-stable"
    ∧ Version.fmt ⟨4, 0, 3, Suffix.rc 3, false, Platform.win32⟩ = "Godot_v4.0.3-rc3"
    ∧ Version.fmt ⟨4, 0, 3, Suffix.stable, true, Platform.win32⟩ = "Godot_v4.0.3-stable_mono"
    ∧ Version.fmt ⟨4, 0, 3, Suffix.alpha 11, true, Platform.win32⟩ = "Godot_v4.0.3-alpha11_mono" :=
  ⟨fmt_eq_specFmt, rfl, rfl, rfl, rfl, rfl, rfl⟩

/-- C4 counterexample: format is not injective — two distinct VersionIds
differing only in platform render to the same string (Display omits the
platform field) — so no parse function can satisfy parse(format(id)) = id
for every id. -/
theorem c4_cex :
    Version.fmt ⟨1, 0, 0, Suffix.stable, false, Platform.win32⟩ =
      Version.fmt ⟨1, 0, 0, Suffix.stable, false, Platform.linux64⟩
    ∧ decide ((⟨1, 0, 0, Suffix.stable, false, Platform.win32⟩ : Version) =
        ⟨1, 0, 0, Suffix.stable, false, Platform.linux64⟩) = false :=
  ⟨rfl, rfl⟩

/-- C4 amended: a parse operation recovers every field except platform
(which the display string omits): parse(format(id)) returns exactly id's
platform-independent fields for every id, and parse fails on malformed
inputs (wrong casing, missing suffix, trailing garbage, empty string). -/
theorem c4_parse_roundtrip :
    (∀ v : Version, parseVersion (Version.fmt v) = some v.core)
    ∧ parseVersion "" = none
    ∧ parseVersion "Godot_v4.0.3" = none
    ∧ parseVersion "godot_v4.0.3-stable" = none
    ∧ parseVersion "Godot_v4.0.3-stablex" = none :=
  ⟨fun v => parse_fmtData v, rfl, rfl, rfl, rfl⟩

/-- C5: an entry whose stored name fails the containment check contributes
no filesystem operation at all (it is skipped before any write), and the
operations of a whole extraction run are exactly those of the same archive
with the escaping entries removed — every other entry is extracted the
same way. -/
theorem c5_skip_escaping (tgt : List Comp) (entries : List Entry) :
    unzipOps tgt entries = unzipOps tgt (entries.filter fun e => encOk e.comps 0)
    ∧ ∀ e : Entry, encOk e.comps 0 = false → entryOps tgt e = [] :=
  ⟨unzipOps_filter tgt entries, fun e h => entryOps_escaping tgt e h⟩

/-- C5 witness: an archive holding a normal entry a/b.txt and an escaping
entry ../escape.txt (spec section 8, scenario 4). -/
theorem c5_skip_escaping_w :
    unzipOps [Comp.normal "target"]
      [⟨[Comp.normal "a", Comp.normal "b.txt"], false, [1, 2], none⟩,
       ⟨[Comp.par, Comp.normal "escape.txt"], false, [3], none⟩] =
      unzipOps [Comp.normal "target"]
        (([⟨[Comp.normal "a", Comp.normal "b.txt"], false, [1, 2], none⟩,
           ⟨[Comp.par, Comp.normal "escape.txt"], false, [3], none⟩] : List Entry).filter
          fun e => encOk e.comps 0)
    ∧ entryOps [Comp.normal "target"]
        ⟨[Comp.par, Comp.normal "escape.txt"], false, [3], none⟩ = [] :=
  ⟨(c5_skip_escaping [Comp.normal "target"]
      [⟨[Comp.normal "a", Comp.normal "b.txt"], false, [1, 2], none⟩,
       ⟨[Comp.par, Comp.normal "escape.txt"], false, [3], none⟩]).1,
   (c5_skip_escaping [Comp.normal "target"] []).2
     ⟨[Comp.par, Comp.normal "escape.txt"], false, [3], none⟩ rfl⟩

/-- C6: CliApp::switch is todo!() — it panics unconditionally for every
VersionId, installed or not; it never returns a NotInstalledError and never
computes bindings, contrary to the claim. -/
theorem c6_switch_todo :
    (∀ v : Version, CliApp.switch v = SwitchOutcome.panic)
    ∧ decide (SwitchOutcome.panic = SwitchOutcome.notInstalled) = false :=
  ⟨fun _ => rfl, rfl⟩

/-- C7 counterexample: a non-success status on the data request does not
fail the download — the source never inspects the GET status — so the
operation succeeds and appends the error body to the destination. -/
theorem c7_cex :
    download_from_url "u" none 200 false false [[9]] none = (none, some [9]) := rfl

/-- C7 amended: a non-success status on the metadata probe fails the
operation with an error carrying the status and the URL and leaves the
destination untouched; the data request's status is never examined (the
outcome is the same whether it succeeds or not); a mid-stream network
failure yields an error while the partially appended destination file is
preserved, not deleted. -/
theorem c7_transfer_errors (url : String) (existing : Option (List Nat))
    (hs : Nat) (gOk sf : Bool) (chunks : List (List Nat)) (fa : Option Nat) :
    (statusIsSuccess hs = false →
      download_from_url url existing hs gOk sf chunks fa =
        (some (DlErr.headStatus url hs), existing))
    ∧ (statusIsSuccess hs = true → sf = false → ∀ k, fa = some k →
        download_from_url url existing hs gOk sf chunks fa =
          (some DlErr.netFail, some (existing.getD [] ++ joinChunks (chunks.take k))))
    ∧ download_from_url url existing hs true sf chunks fa =
        download_from_url url existing hs false sf chunks fa := by
  refine ⟨?_, ?_, rfl⟩
  · intro h
    simp [download_from_url, h]
  · intro h hsf k hk
    subst hsf hk
    simp [download_from_url, h]

/-- C7 witness: a 404 on the metadata probe of a partially downloaded file,
and a stream dying after one chunk with the partial file preserved. -/
theorem c7_transfer_errors_w :
    download_from_url "http://x" (some [5]) 404 true false [[1]] none =
      (some (DlErr.headStatus "http://x" 404), some [5])
    ∧ download_from_url "http://x" (some [5]) 200 true false [[1, 2], [3]] (some 1) =
      (some DlErr.netFail, some [5, 1, 2]) :=
  ⟨(c7_transfer_errors "http://x" (some [5]) 404 true false [[1]] none).1 rfl,
   (c7_transfer_errors "http://x" (some [5]) 200 true false [[1, 2], [3]] (some 1)).2.1
     rfl rfl 1 rfl⟩

/-- C8: find_url returns the stored URL exactly for a structurally equal
key (all fields, platform and mono-flag included) and returns nothing for
any absent key, in which case install_godot's lookup step fails with an
error naming the requested id via its display form. -/
theorem c8_lookup_exact (l : List (Version × String)) (v : Version) :
    ((l.map Prod.fst).Nodup → ∀ u, (v, u) ∈ l → find_url l v = some u)
    ∧ (v ∉ l.map Prod.fst →
        find_url l v = none ∧
        install_godot_lookup l v =
          Except.error ("Version " ++ Version.fmt v ++ " not found")) := by
  constructor
  · intro hnd u hu
    exact find_url_present l v hnd u hu
  · intro hv
    have hn := find_url_absent l v hv
    exact ⟨hn, by simp [install_godot_lookup, hn]⟩

/-- C8 witness: the registry of spec section 8, scenario 1 — the exact
Linux64 key is found, the same key with platform Win64 is a near miss that
fails with an error naming the requested id. -/
theorem c8_lookup_exact_w :
    find_url demoRegistry demoKeyLin = some "https://example/godot-4.0.3-linux64.zip"
    ∧ find_url demoRegistry demoKeyWin = none
    ∧ install_godot_lookup demoRegistry demoKeyWin =
        Except.error ("Version " ++ Version.fmt demoKeyWin ++ " not found") :=
  ⟨(c8_lookup_exact demoRegistry demoKeyLin).1 (by decide) _ (by decide),
   ((c8_lookup_exact demoRegistry demoKeyWin).2 (by decide)).1,
   ((c8_lookup_exact demoRegistry demoKeyWin).2 (by decide)).2⟩

/-- C9 counterexample: a corrupt entry does not make extract return an
error — by_index(i).unwrap() turns it into a panic (process abort), which
is not an error returned to the caller. -/
theorem c9_cex :
    unzip (Except.ok ()) (Except.ok [Except.error "corrupt entry"]) (fun _ => false) =
      UnzipOutcome.panicked := rfl

/-- C9 amended: only the failure to open the archive file is returned to
the caller; an unreadable archive, a corrupt entry, or a write failure on
any kept entry aborts the whole extraction by panicking (unwrap), not by
returning an error — no failure is silently ignored. -/
theorem c9_failure_panics (arch : Except String (List (Except String Entry)))
    (wfail : Entry → Bool) (m : String) (entries : List (Except String Entry)) :
    unzip (Except.error m) arch wfail = UnzipOutcome.ioError m
    ∧ unzip (Except.ok ()) (Except.error m) wfail = UnzipOutcome.panicked
    ∧ (((∃ m', Except.error m' ∈ entries) ∨
        (∃ e, Except.ok e ∈ entries ∧ encOk e.comps 0 = true ∧ wfail e = true)) →
       unzip (Except.ok ()) (Except.ok entries) wfail = UnzipOutcome.panicked) :=
  ⟨rfl, rfl, fun h => unzipEntriesOutcome_fail wfail entries h⟩

/-- C9 witness: an unopenable archive file is an error return; an invalid
zip panics; a write failure on a kept entry panics. -/
theorem c9_failure_panics_w :
    unzip (Except.error "no such file") (Except.ok []) (fun _ => false) =
      UnzipOutcome.ioError "no such file"
    ∧ unzip (Except.ok ()) (Except.error "invalid zip") (fun _ => false) =
      UnzipOutcome.panicked
    ∧ unzip (Except.ok ()) (Except.ok [Except.ok ⟨[Comp.normal "f"], false, [1], none⟩])
        (fun _ => true) = UnzipOutcome.panicked :=
  ⟨(c9_failure_panics (Except.ok []) (fun _ => false) "no such file" []).1,
   (c9_failure_panics (Except.error "invalid zip") (fun _ => false) "invalid zip" []).2.1,
   (c9_failure_panics (Except.ok []) (fun _ => true) ""
       [Except.ok ⟨[Comp.normal "f"], false, [1], none⟩]).2.2
     (Or.inr ⟨⟨[Comp.normal "f"], false, [1], none⟩, List.mem_singleton.mpr rfl, rfl, rfl⟩)⟩

/-- C10: update_version_list fetches the descriptor from
config.download_proxy_url — its outcome depends on no other Config field,
the URL it fetches is exactly download_proxy_url, and in the default
config that URL differs from version_list_proxy_url, which the update path
never reads. -/
theorem c10_update_uses_download_proxy (c c' : Config) (cache : Option (List Nat))
    (hs : Nat) (gOk sf : Bool) (chunks : List (List Nat)) (fa : Option Nat)
    (h : c.download_proxy_url = c'.download_proxy_url) :
    update_version_list c cache hs gOk sf chunks fa =
      update_version_list c' cache hs gOk sf chunks fa
    ∧ (update_version_list c cache hs gOk sf chunks fa).fetchedUrl = c.download_proxy_url
    ∧ decide (Config.default.version_list_proxy_url = Config.default.download_proxy_url)
        = false := by
  refine ⟨?_, rfl, rfl⟩
  simp [update_version_list, h]

/-- C10 witness: the default config against a config whose
version_list_proxy_url is different; the update outcomes coincide. -/
theorem c10_update_uses_download_proxy_w :
    update_version_list Config.default none 200 true false [[1]] none =
      update_version_list
        ⟨"unused", "https://downloads.tuxfamily.org/godotengine/", true, true⟩
        none 200 true false [[1]] none
    ∧ (update_version_list Config.default none 200 true false [[1]] none).fetchedUrl =
        Config.default.download_proxy_url
    ∧ decide (Config.default.version_list_proxy_url = Config.default.download_proxy_url)
        = false :=
  c10_update_uses_download_proxy Config.default
    ⟨"unused", "https://downloads.tuxfamily.org/godotengine/", true, true⟩
    none 200 true false [[1]] none rfl

end Godotup
